import Mathlib

/-!
Shallow embedding, in Lean 4, of the session-reporting pipeline of this
repository: the percentile helper and the session aggregation engine
(aggregates_sessions.py), the raw-result sink (storage.py and
job_repo.py), the session materializer (session_repo.py) and the
depth-tracking consume loop (rabbit_worker.py).  Python floats are
embedded as exact rationals, SQL tables as lists of rows with explicit
primary-key lookup, Python dictionaries as association lists, and
`None` as `Option.none`.
-/

/-- Python `int(r)` applied to a float: truncation toward zero. -/
def pyTruncInt (r : ℚ) : ℤ := if 0 ≤ r then ⌊r⌋ else ⌈r⌉

/-- `_percentile(sorted_vals, p)` from aggregates_sessions.py: linear
interpolation on an already-sorted list; `none` embeds Python `None`.
The source indexes `sorted_vals[lo]` and `sorted_vals[hi]` directly;
list indexing is embedded with `List.getD`, and the in-bounds facts are
proved separately (safety claim). -/
def percentile (sorted_vals : List ℚ) (p : ℚ) : Option ℚ :=
  let n := sorted_vals.length
  if n = 0 then none
  else if n = 1 then some (sorted_vals.getD 0 0)
  else
    let r := (p / 100) * ((n : ℚ) - 1)
    let lo := pyTruncInt r
    let hi := min (lo + 1) ((n : ℤ) - 1)
    let frac := r - (lo : ℚ)
    some (sorted_vals.getD lo.toNat 0 * (1 - frac) + sorted_vals.getD hi.toNat 0 * frac)

/-! Rank bounds for `r = (p/100) * (n-1)` with `p` in `[0, 100]`. -/

theorem percRank_nonneg {p : ℚ} {n : ℕ} (h0 : 0 ≤ p) (hn : 2 ≤ n) :
    0 ≤ (p / 100) * ((n : ℚ) - 1) := by
  have hn' : (1 : ℚ) ≤ (n : ℚ) - 1 := by
    have : (2 : ℚ) ≤ (n : ℚ) := by exact_mod_cast hn
    linarith
  have : (0 : ℚ) ≤ p / 100 := by positivity
  nlinarith

theorem percRank_le_pred {p : ℚ} {n : ℕ} (h0 : 0 ≤ p) (h100 : p ≤ 100) (hn : 2 ≤ n) :
    (p / 100) * ((n : ℚ) - 1) ≤ (n : ℚ) - 1 := by
  have hn' : (1 : ℚ) ≤ (n : ℚ) - 1 := by
    have : (2 : ℚ) ≤ (n : ℚ) := by exact_mod_cast hn
    linarith
  have hp : p / 100 ≤ 1 := by
    rw [div_le_one (by norm_num)]
    exact h100
  nlinarith

theorem pyTruncInt_of_nonneg {r : ℚ} (h : 0 ≤ r) : pyTruncInt r = ⌊r⌋ := by
  simp [pyTruncInt, h]

/-- In the interpolation branch of `_percentile`, the computed value is
exactly the spec's `sorted[floor r] * (1 - frac) + sorted[ceil r] * frac`. -/
theorem percentile_eq_interp (vals : List ℚ) (p : ℚ) (h0 : 0 ≤ p) (h100 : p ≤ 100)
    (hn : 2 ≤ vals.length) :
    percentile vals p =
      some (vals.getD (⌊(p / 100) * ((vals.length : ℚ) - 1)⌋).toNat 0
              * (1 - Int.fract ((p / 100) * ((vals.length : ℚ) - 1)))
            + vals.getD (⌈(p / 100) * ((vals.length : ℚ) - 1)⌉).toNat 0
              * Int.fract ((p / 100) * ((vals.length : ℚ) - 1))) := by
  have h0n : vals.length ≠ 0 := by omega
  have h1n : vals.length ≠ 1 := by omega
  set n := vals.length with hn_def
  set r : ℚ := (p / 100) * ((n : ℚ) - 1) with hr_def
  have hr0 : 0 ≤ r := percRank_nonneg h0 hn
  have hr1 : r ≤ (n : ℚ) - 1 := percRank_le_pred h0 h100 hn
  have hfr : Int.fract r = r - (⌊r⌋ : ℚ) := rfl
  rw [percentile]
  simp only [if_neg h0n, if_neg h1n, pyTruncInt_of_nonneg hr0]
  rw [hfr]
  by_cases hf : r - ((⌊r⌋ : ℤ) : ℚ) = 0
  · rw [hf]
    ring_nf
  · have hlt : (⌊r⌋ : ℚ) < r :=
      lt_of_le_of_ne (Int.floor_le r) (fun h => hf (by rw [h, sub_self]))
    have hceil : ⌈r⌉ = ⌊r⌋ + 1 := by
      have hup : ⌈r⌉ ≤ ⌊r⌋ + 1 := Int.ceil_le_floor_add_one r
      have hdn : ⌊r⌋ + 1 ≤ ⌈r⌉ := by
        have : (⌊r⌋ : ℚ) < (⌈r⌉ : ℚ) := lt_of_lt_of_le hlt (Int.le_ceil r)
        have : ⌊r⌋ < ⌈r⌉ := by exact_mod_cast this
        omega
      omega
    have hceil_le : ⌈r⌉ ≤ (n : ℤ) - 1 := by
      rw [Int.ceil_le]
      push_cast
      exact hr1
    have hmin : min (⌊r⌋ + 1) ((n : ℤ) - 1) = ⌊r⌋ + 1 :=
      min_eq_left (by omega)
    rw [hmin, hceil]

/-- `_percentile` at `p = 0` returns the first element of the list. -/
theorem percentile_zero (vals : List ℚ) (h : vals ≠ []) :
    percentile vals 0 = some (vals.getD 0 0) := by
  have hn : vals.length ≠ 0 := by
    simpa [List.length_eq_zero] using h
  by_cases h1 : vals.length = 1
  · simp [percentile, h1]
  · have h2 : 2 ≤ vals.length := by omega
    have hr : ((0 : ℚ) / 100) * ((vals.length : ℚ) - 1) = 0 := by ring
    rw [percentile]
    simp only [if_neg hn, if_neg h1, hr, pyTruncInt_of_nonneg (le_refl (0 : ℚ))]
    norm_num

/-- `_percentile` at `p = 100` returns the last element of the list. -/
theorem percentile_hundred (vals : List ℚ) (h : vals ≠ []) :
    percentile vals 100 = some (vals.getD (vals.length - 1) 0) := by
  have hn : vals.length ≠ 0 := by
    simpa [List.length_eq_zero] using h
  by_cases h1 : vals.length = 1
  · simp [percentile, h1]
  · have h2 : 2 ≤ vals.length := by omega
    have hz : (0 : ℤ) ≤ (vals.length : ℤ) - 1 := by omega
    have hr : ((100 : ℚ) / 100) * ((vals.length : ℚ) - 1) = (((vals.length : ℤ) - 1 : ℤ) : ℚ) := by
      push_cast
      ring
    have hge : (0 : ℚ) ≤ (((vals.length : ℤ) - 1 : ℤ) : ℚ) := by
      exact_mod_cast hz
    rw [percentile]
    simp only [if_neg hn, if_neg h1, hr, pyTruncInt_of_nonneg hge, Int.floor_intCast]
    have htn : ((vals.length : ℤ) - 1).toNat = vals.length - 1 := by omega
    have hmin : min ((vals.length : ℤ) - 1 + 1) ((vals.length : ℤ) - 1) = (vals.length : ℤ) - 1 := by
      omega
    rw [hmin, htn]
    congr 1
    ring

/-- In a `≤`-sorted list, the element at index `0` is a lower bound. -/
theorem sorted_getD_zero_le (vals : List ℚ) (hs : vals.Sorted (· ≤ ·)) :
    ∀ x ∈ vals, vals.getD 0 0 ≤ x := by
  cases vals with
  | nil => intro x hx; cases hx
  | cons a l =>
    intro x hx
    rcases List.mem_cons.mp hx with rfl | hxl
    · simp
    · simpa using (List.sorted_cons.mp hs).1 x hxl

/-- In a `≤`-sorted list, the element at the last index is an upper bound. -/
theorem sorted_le_getD_last (vals : List ℚ) (hs : vals.Sorted (· ≤ ·)) :
    ∀ x ∈ vals, x ≤ vals.getD (vals.length - 1) 0 := by
  induction vals with
  | nil => intro x hx; cases hx
  | cons a l ih =>
    intro x hx
    have hsl : l.Sorted (· ≤ ·) := (List.sorted_cons.mp hs).2
    have hal : ∀ b ∈ l, a ≤ b := (List.sorted_cons.mp hs).1
    cases l with
    | nil =>
      rcases List.mem_cons.mp hx with rfl | hxl
      · simp
      · cases hxl
    | cons b t =>
      have hlen : (a :: b :: t).length - 1 = ((b :: t).length - 1) + 1 := by
        simp
      have hstep : (a :: b :: t).getD ((a :: b :: t).length - 1) 0
          = (b :: t).getD ((b :: t).length - 1) 0 := by
        rw [hlen]
        rfl
      rcases List.mem_cons.mp hx with rfl | hxl
      · have hb : b ∈ b :: t := List.mem_cons_self b t
        have h1 : x ≤ b := hal b hb
        have h2 : b ≤ (b :: t).getD ((b :: t).length - 1) 0 := ih hsl b hb
        rw [hstep]
        exact le_trans h1 h2
      · rw [hstep]
        exact ih hsl x hxl

/-- C1: `_percentile` computes percentiles by linear interpolation on the
sorted sequence: for `n = 0` it returns `none`, for `n = 1` the single
value, and otherwise `sorted[floor r] * (1 - frac) + sorted[ceil r] * frac`
with `r = (p/100) * (n-1)` and `frac = r - floor r`; consequently, on a
non-decreasing sequence `p = 0` returns the minimum and `p = 100` the
maximum. -/
theorem C1_percentile_linear_interpolation (vals : List ℚ) (p : ℚ)
    (h0 : 0 ≤ p) (h100 : p ≤ 100) :
    (vals.length = 0 → percentile vals p = none) ∧
    (vals.length = 1 → percentile vals p = some (vals.getD 0 0)) ∧
    (2 ≤ vals.length →
      percentile vals p =
        some (vals.getD (⌊(p / 100) * ((vals.length : ℚ) - 1)⌋).toNat 0
                * (1 - Int.fract ((p / 100) * ((vals.length : ℚ) - 1)))
              + vals.getD (⌈(p / 100) * ((vals.length : ℚ) - 1)⌉).toNat 0
                * Int.fract ((p / 100) * ((vals.length : ℚ) - 1)))) ∧
    (vals.Sorted (· ≤ ·) → vals ≠ [] →
      percentile vals 0 = some (vals.getD 0 0) ∧
      percentile vals 100 = some (vals.getD (vals.length - 1) 0) ∧
      ∀ x ∈ vals, vals.getD 0 0 ≤ x ∧ x ≤ vals.getD (vals.length - 1) 0) := by
  refine ⟨fun h => by simp [percentile, h], fun h => by simp [percentile, h],
    fun hn => percentile_eq_interp vals p h0 h100 hn, fun hs hne => ?_⟩
  exact ⟨percentile_zero vals hne, percentile_hundred vals hne,
    fun x hx => ⟨sorted_getD_zero_le vals hs x hx, sorted_le_getD_last vals hs x hx⟩⟩

/-- C1, witnessed at a concrete input: on `[1, 2]` the 50th percentile
interpolates to `1 * (1/2) + 2 * (1/2) = 3/2`. -/
theorem C1_percentile_linear_interpolation_witness :
    percentile [(1 : ℚ), 2] 50 = some (3 / 2) := by
  have h := (C1_percentile_linear_interpolation [(1 : ℚ), 2] 50
    (by norm_num) (by norm_num)).2.2.1 (by norm_num)
  rw [h]
  have hr : (50 / 100 : ℚ) * (([(1 : ℚ), 2].length : ℚ) - 1) = 1 / 2 := by
    norm_num
  rw [hr]
  have hfl : ⌊(1 / 2 : ℚ)⌋ = 0 := by
    rw [Int.floor_eq_iff]
    norm_num
  have hcl : ⌈(1 / 2 : ℚ)⌉ = 1 := by
    rw [Int.ceil_eq_iff]
    norm_num
  have hfr : Int.fract (1 / 2 : ℚ) = 1 / 2 := by
    rw [Int.fract, hfl]
    norm_num
  rw [hfl, hcl, hfr]
  norm_num [List.getD]

/-- C10 (implicit): `_percentile` is total for `p` in `[0, 100]`: it
returns `none` exactly on the empty list, both indices it reads lie in
`[0, n-1]`, and `p = 100` reads the last element. -/
theorem C10_percentile_total_in_bounds (vals : List ℚ) (p : ℚ)
    (h0 : 0 ≤ p) (h100 : p ≤ 100) :
    (percentile vals p = none ↔ vals = []) ∧
    (2 ≤ vals.length →
      0 ≤ pyTruncInt ((p / 100) * ((vals.length : ℚ) - 1)) ∧
      (pyTruncInt ((p / 100) * ((vals.length : ℚ) - 1))).toNat < vals.length ∧
      0 ≤ min (pyTruncInt ((p / 100) * ((vals.length : ℚ) - 1)) + 1) ((vals.length : ℤ) - 1) ∧
      (min (pyTruncInt ((p / 100) * ((vals.length : ℚ) - 1)) + 1)
        ((vals.length : ℤ) - 1)).toNat < vals.length) ∧
    (vals ≠ [] → percentile vals 100 = some (vals.getD (vals.length - 1) 0)) := by
  refine ⟨?_, fun hn => ?_, fun hne => percentile_hundred vals hne⟩
  · constructor
    · intro h
      by_contra hne
      have h0n : vals.length ≠ 0 := by
        simpa [List.length_eq_zero] using hne
      by_cases h1 : vals.length = 1
      · simp [percentile, h1] at h
      · rw [percentile] at h
        simp only [if_neg h0n, if_neg h1] at h
        exact Option.noConfusion h
    · intro h
      simp [percentile, h]
  · set r : ℚ := (p / 100) * ((vals.length : ℚ) - 1) with hr_def
    have hr0 : 0 ≤ r := percRank_nonneg h0 hn
    have hr1 : r ≤ (vals.length : ℚ) - 1 := percRank_le_pred h0 h100 hn
    have hlo : pyTruncInt r = ⌊r⌋ := pyTruncInt_of_nonneg hr0
    have hlo0 : 0 ≤ ⌊r⌋ := Int.floor_nonneg.mpr hr0
    have hlon : ⌊r⌋ ≤ (vals.length : ℤ) - 1 := by
      have := Int.floor_le_floor hr1
      rwa [show ((vals.length : ℚ) - 1) = (((vals.length : ℤ) - 1 : ℤ) : ℚ) by push_cast; ring,
        Int.floor_intCast] at this
    rw [hlo]
    refine ⟨hlo0, by omega, by omega, by omega⟩

/-- C10, witnessed at a concrete input: `p = 100` returns the last element
of `[5, 7]`, and the 50th percentile of the empty list is `None`. -/
theorem C10_percentile_total_in_bounds_witness :
    percentile [(5 : ℚ), 7] 100 = some 7 ∧ percentile ([] : List ℚ) 50 = none := by
  constructor
  · have h := (C10_percentile_total_in_bounds [(5 : ℚ), 7] 100
      (by norm_num) (by norm_num)).2.2 (by simp)
    simpa using h
  · exact (C10_percentile_total_in_bounds ([] : List ℚ) 50
      (by norm_num) (by norm_num)).1.mpr rfl

/-! ## Raw result rows and the aggregation engine (aggregates_sessions.py) -/

/-- One row of the `request_results` table as the aggregation engine reads
it (`SELECT rr.*`).  `epoch` embeds `strftime('%s', rr.timestamp)`: the
ISO timestamp expressed in epoch seconds; `is_success` embeds the stored
0/1 flag (`int(r["is_success"]) == 1`). -/
structure RawRow where
  job_id : Int
  worker_id : Int
  epoch : Int
  method : String
  endpoint : String
  status_code : Int
  latency_ms : Option ℚ
  ttfb_ms : Option ℚ
  is_success : Bool
  deriving DecidableEq

/-- One row of `analysis_session_jobs`. -/
structure SessionJob where
  session_id : Int
  job_id : Int
  depth : Int
  deriving DecidableEq

/-- `_iter_raw_for_session`: the raw rows whose job id is associated to
the session by `analysis_session_jobs`. -/
def rawForSession (raw : List RawRow) (sjd : List SessionJob) (sid : Int) : List RawRow :=
  raw.filter (fun r => sjd.any (fun sj => sj.session_id == sid && sj.job_id == r.job_id))

/-- `sum(1 for r in rows if 200 <= int(r["status_code"]) < 300)`. -/
def countStatus2xx (rows : List RawRow) : ℕ :=
  rows.countP (fun r => decide (200 ≤ r.status_code ∧ r.status_code < 300))

/-- `sum(1 for r in rows if 400 <= int(r["status_code"]) < 500)`. -/
def countStatus4xx (rows : List RawRow) : ℕ :=
  rows.countP (fun r => decide (400 ≤ r.status_code ∧ r.status_code < 500))

/-- `sum(1 for r in rows if 500 <= int(r["status_code"]) < 600)`. -/
def countStatus5xx (rows : List RawRow) : ℕ :=
  rows.countP (fun r => decide (500 ≤ r.status_code ∧ r.status_code < 600))

/-- `sum(1 for r in rows if int(r["is_success"]) == 1)`. -/
def successCount (rows : List RawRow) : ℕ := rows.countP (fun r => r.is_success)

/-- C7: the status-code counters partition rows by the closed-open ranges
[200,300), [400,500), [500,600): each counter counts a new row exactly
when its range contains the row's status; a 503 row increments only
`status_5xx`; and no row is counted by more than one of the three
counters. -/
theorem C7_status_code_partition (rows : List RawRow) (r : RawRow) :
    (countStatus2xx (r :: rows) =
      countStatus2xx rows + (if 200 ≤ r.status_code ∧ r.status_code < 300 then 1 else 0)) ∧
    (countStatus4xx (r :: rows) =
      countStatus4xx rows + (if 400 ≤ r.status_code ∧ r.status_code < 500 then 1 else 0)) ∧
    (countStatus5xx (r :: rows) =
      countStatus5xx rows + (if 500 ≤ r.status_code ∧ r.status_code < 600 then 1 else 0)) ∧
    (r.status_code = 503 →
      countStatus5xx (r :: rows) = countStatus5xx rows + 1 ∧
      countStatus2xx (r :: rows) = countStatus2xx rows ∧
      countStatus4xx (r :: rows) = countStatus4xx rows) ∧
    ((if 200 ≤ r.status_code ∧ r.status_code < 300 then 1 else 0) +
      (if 400 ≤ r.status_code ∧ r.status_code < 500 then 1 else 0) +
      (if 500 ≤ r.status_code ∧ r.status_code < 600 then 1 else 0) ≤ 1) := by
  refine ⟨?_, ?_, ?_, fun h503 => ?_, ?_⟩
  · simp [countStatus2xx, List.countP_cons]
  · simp [countStatus4xx, List.countP_cons]
  · simp [countStatus5xx, List.countP_cons]
  · refine ⟨?_, ?_, ?_⟩ <;>
      simp [countStatus2xx, countStatus4xx, countStatus5xx, List.countP_cons, h503]
  · split_ifs <;> omega

/-- Arithmetic mean over a sample list, `None` when empty:
`(sum(xs) / len(xs)) if xs else None`. -/
def avgOf (xs : List ℚ) : Option ℚ :=
  if xs.isEmpty then none else some (xs.sum / (xs.length : ℚ))

/-- The non-null latencies of a row list, sorted ascending
(`lat = [...]; lat.sort()`). -/
def sortedLatencies (rows : List RawRow) : List ℚ :=
  (rows.filterMap RawRow.latency_ms).insertionSort (· ≤ ·)

/-- The non-null TTFB samples of a row list, sorted ascending. -/
def sortedTtfbs (rows : List RawRow) : List ℚ :=
  (rows.filterMap RawRow.ttfb_ms).insertionSort (· ≤ ·)

/-- One row of `session_summary`. -/
structure SummaryRow where
  session_id : Int
  bucket_seconds : Int
  total_requests : ℕ
  success_requests : ℕ
  success_rate : ℚ
  status_2xx : ℕ
  status_4xx : ℕ
  status_5xx : ℕ
  latency_avg : Option ℚ
  latency_p50 : Option ℚ
  latency_p90 : Option ℚ
  latency_p95 : Option ℚ
  latency_p99 : Option ℚ
  ttfb_avg : Option ℚ
  ttfb_p95 : Option ℚ
  deriving DecidableEq

/-- The `session_summary` values computed for one session
(`success_rate = (success / total) if total else 0.0`). -/
def mkSummaryRow (sid B : Int) (rows : List RawRow) : SummaryRow :=
  { session_id := sid
    bucket_seconds := B
    total_requests := rows.length
    success_requests := successCount rows
    success_rate := if rows.length = 0 then 0 else (successCount rows : ℚ) / (rows.length : ℚ)
    status_2xx := countStatus2xx rows
    status_4xx := countStatus4xx rows
    status_5xx := countStatus5xx rows
    latency_avg := avgOf (sortedLatencies rows)
    latency_p50 := percentile (sortedLatencies rows) 50
    latency_p90 := percentile (sortedLatencies rows) 90
    latency_p95 := percentile (sortedLatencies rows) 95
    latency_p99 := percentile (sortedLatencies rows) 99
    ttfb_avg := avgOf (sortedTtfbs rows)
    ttfb_p95 := percentile (sortedTtfbs rows) 95 }

/-- One row of `session_endpoint_summary`. -/
structure EndpointRow where
  session_id : Int
  endpoint : String
  method : String
  count : ℕ
  success_rate : ℚ
  status_5xx : ℕ
  latency_avg : Option ℚ
  latency_p95 : Option ℚ
  latency_p99 : Option ℚ
  deriving DecidableEq

/-- The distinct `(endpoint, method)` keys in first-occurrence order (the
Python grouping dict's insertion order). -/
def epKeys (rows : List RawRow) : List (String × String) :=
  (rows.map (fun r => (r.endpoint, r.method))).dedup

/-- The rows grouped under one `(endpoint, method)` key, in original
order. -/
def epGroup (rows : List RawRow) (e m : String) : List RawRow :=
  rows.filter (fun r => r.endpoint == e && r.method == m)

/-- The `session_endpoint_summary` values computed for one group. -/
def mkEndpointRow (sid : Int) (e m : String) (rows : List RawRow) : EndpointRow :=
  let grp := epGroup rows e m
  { session_id := sid
    endpoint := e
    method := m
    count := grp.length
    success_rate := if grp.length = 0 then 0 else (successCount grp : ℚ) / (grp.length : ℚ)
    status_5xx := countStatus5xx grp
    latency_avg := avgOf (sortedLatencies grp)
    latency_p95 := percentile (sortedLatencies grp) 95
    latency_p99 := percentile (sortedLatencies grp) 99 }

/-- One row of `session_timeseries_summary`. -/
structure TsRow where
  session_id : Int
  bucket_seconds : Int
  bucket_start : Int
  count : ℕ
  success_rate : ℚ
  status_5xx : ℕ
  latency_avg : Option ℚ
  latency_p95 : Option ℚ
  deriving DecidableEq

/-- Bucket start `(strftime('%s', timestamp) / B) * B` (SQL integer
division on epoch seconds; `datetime(..., 'unixepoch')` renders this
value as a string, an order-preserving injective encoding that the
embedding keeps as the integer itself). -/
def bucketOf (B : Int) (r : RawRow) : Int := (r.epoch / B) * B

/-- The distinct bucket starts, ascending (`GROUP BY bucket_start ORDER
BY bucket_start ASC`). -/
def tsBuckets (B : Int) (rows : List RawRow) : List Int :=
  ((rows.map (bucketOf B)).dedup).insertionSort (· ≤ ·)

/-- The rows falling in one bucket. -/
def bucketGroup (B t : Int) (rows : List RawRow) : List RawRow :=
  rows.filter (fun r => bucketOf B r == t)

/-- The `session_timeseries_summary` values computed for one bucket:
count, `SUM(is_success)/COUNT(*)`, `status_code BETWEEN 500 AND 599`,
`AVG(latency_ms)` over non-null samples, and the p95 computed in Python
from the re-queried, sorted, non-null latencies of the bucket.  (The SQL
success rate has no zero guard; a bucket produced by `GROUP BY` is never
empty, and the guard below only fills the off-domain case.) -/
def mkTsRow (sid B t : Int) (rows : List RawRow) : TsRow :=
  let grp := bucketGroup B t rows
  { session_id := sid
    bucket_seconds := B
    bucket_start := t
    count := grp.length
    success_rate := if grp.length = 0 then 0 else (successCount grp : ℚ) / (grp.length : ℚ)
    status_5xx := grp.countP (fun r => decide (500 ≤ r.status_code ∧ r.status_code ≤ 599))
    latency_avg := avgOf (grp.filterMap RawRow.latency_ms)
    latency_p95 := percentile (sortedLatencies grp) 95 }

/-! ## SQL tables as lists with primary-key upsert -/

/-- `INSERT ... ON CONFLICT(key) DO UPDATE`: replace the row holding the
same primary key in place, else append. -/
def upsertBy {ρ κ : Type} [DecidableEq κ] (keyOf : ρ → κ) (row : ρ) : List ρ → List ρ
  | [] => [row]
  | r :: rs => if keyOf r = keyOf row then row :: rs else r :: upsertBy keyOf row rs

/-- `SELECT ... WHERE key = k`: the first row holding the primary key. -/
def lookupBy {ρ κ : Type} [DecidableEq κ] (keyOf : ρ → κ) (k : κ) : List ρ → Option ρ
  | [] => none
  | r :: rs => if keyOf r = k then some r else lookupBy keyOf k rs

/-- Primary key of `session_summary`: `ON CONFLICT(session_id)`. -/
def summaryKey (r : SummaryRow) : Int := r.session_id

/-- Primary key of `session_endpoint_summary`:
`ON CONFLICT(session_id, endpoint, method)`. -/
def epKey (r : EndpointRow) : Int × String × String := (r.session_id, r.endpoint, r.method)

/-- Primary key of `session_timeseries_summary`:
`ON CONFLICT(session_id, bucket_seconds, bucket_start)`. -/
def tsKey (r : TsRow) : Int × Int × Int := (r.session_id, r.bucket_seconds, r.bucket_start)

/-- The three aggregate tables. -/
structure AggState where
  summary : List SummaryRow
  endpoint : List EndpointRow
  timeseries : List TsRow
  deriving DecidableEq

/-- `_clear_session_aggregates`: delete the summary and timeseries rows
of this session *and* this bucket width, and every endpoint row of this
session. -/
def clearSessionAggregates (sid B : Int) (st : AggState) : AggState :=
  { summary := st.summary.filter (fun r => !(r.session_id == sid && r.bucket_seconds == B))
    endpoint := st.endpoint.filter (fun r => !(r.session_id == sid))
    timeseries := st.timeseries.filter (fun r => !(r.session_id == sid && r.bucket_seconds == B)) }

/-- The body of `compute_session_aggregates` for one session id: load the
session's raw rows; if none, skip; else clear and upsert the summary row,
one endpoint row per `(endpoint, method)` key, and one timeseries row per
bucket. -/
def computeSessionAggregatesOne (raw : List RawRow) (sjd : List SessionJob)
    (sid B : Int) (st : AggState) : AggState :=
  let rows := rawForSession raw sjd sid
  if rows.isEmpty then st
  else
    let st1 := clearSessionAggregates sid B st
    let st2 := { st1 with summary := upsertBy summaryKey (mkSummaryRow sid B rows) st1.summary }
    let st3 := { st2 with
      endpoint := (epKeys rows).foldl
        (fun t (k : String × String) => upsertBy epKey (mkEndpointRow sid k.1 k.2 rows) t)
        st2.endpoint }
    { st3 with
      timeseries := (tsBuckets B rows).foldl
        (fun t b => upsertBy tsKey (mkTsRow sid B b rows) t) st3.timeseries }

/-- `compute_session_aggregates` over a normalized list of session ids. -/
def computeSessionAggregatesAll (raw : List RawRow) (sjd : List SessionJob)
    (sids : List Int) (B : Int) (st : AggState) : AggState :=
  sids.foldl (fun acc sid => computeSessionAggregatesOne raw sjd sid B acc) st

/-! ## Primary-key lookup lemmas -/

theorem lookupBy_upsertBy {ρ κ : Type} [DecidableEq κ] (keyOf : ρ → κ) (row : ρ)
    (t : List ρ) (k : κ) :
    lookupBy keyOf k (upsertBy keyOf row t) =
      if keyOf row = k then some row else lookupBy keyOf k t := by
  induction t with
  | nil => simp [upsertBy, lookupBy]
  | cons r rs ih =>
    simp only [upsertBy, lookupBy]
    by_cases h : keyOf r = keyOf row
    · rw [if_pos h]
      by_cases hk : keyOf row = k
      · simp only [lookupBy, if_pos hk]
      · have hrk : ¬ keyOf r = k := by rw [h]; exact hk
        simp only [lookupBy, if_neg hk, if_neg hrk]
    · rw [if_neg h]
      simp only [lookupBy]
      by_cases hrk : keyOf r = k
      · have hk : ¬ keyOf row = k := fun hh => h (by rw [hrk, hh])
        rw [if_pos hrk, if_neg hk, if_pos hrk]
      · rw [if_neg hrk, ih]
        by_cases hk : keyOf row = k
        · rw [if_pos hk, if_pos hk]
        · rw [if_neg hk, if_neg hk, if_neg hrk]

theorem lookupBy_filter_keep {ρ κ : Type} [DecidableEq κ] (keyOf : ρ → κ) (p : ρ → Bool)
    (t : List ρ) (k : κ) (h : ∀ r, keyOf r = k → p r = true) :
    lookupBy keyOf k (t.filter p) = lookupBy keyOf k t := by
  induction t with
  | nil => simp
  | cons r rs ih =>
    rw [List.filter_cons]
    by_cases hk : keyOf r = k
    · rw [if_pos (h r hk)]
      simp [lookupBy, hk]
    · by_cases hp : p r
      · simp [hp, lookupBy, hk, ih]
      · simp [hp, lookupBy, hk, ih]

theorem lookupBy_filter_drop {ρ κ : Type} [DecidableEq κ] (keyOf : ρ → κ) (p : ρ → Bool)
    (t : List ρ) (k : κ) (h : ∀ r, keyOf r = k → p r = false) :
    lookupBy keyOf k (t.filter p) = none := by
  induction t with
  | nil => simp [lookupBy]
  | cons r rs ih =>
    rw [List.filter_cons]
    by_cases hp : p r
    · have hk : ¬ keyOf r = k := fun hh => by simp [h r hh] at hp
      simp [hp, lookupBy, hk, ih]
    · simp [hp, ih]

theorem lookupBy_foldl_upsert_not_mem {ρ κ ι : Type} [DecidableEq κ] (keyOf : ρ → κ)
    (toKey : ι → κ) (rowOf : ι → ρ) (hkey : ∀ c, keyOf (rowOf c) = toKey c)
    (keys : List ι) (k : κ) (h : ∀ c ∈ keys, toKey c ≠ k) :
    ∀ t0 : List ρ,
      lookupBy keyOf k (keys.foldl (fun t c => upsertBy keyOf (rowOf c) t) t0) =
        lookupBy keyOf k t0 := by
  induction keys with
  | nil => intro t0; rfl
  | cons c cs ih =>
    intro t0
    have hcs : ∀ c' ∈ cs, toKey c' ≠ k := fun c' hc' => h c' (List.mem_cons_of_mem c hc')
    rw [List.foldl_cons, ih hcs, lookupBy_upsertBy, hkey,
      if_neg (h c (List.mem_cons_self c cs))]

theorem lookupBy_foldl_upsert_mem {ρ κ ι : Type} [DecidableEq κ] (keyOf : ρ → κ)
    (toKey : ι → κ) (rowOf : ι → ρ) (hkey : ∀ c, keyOf (rowOf c) = toKey c)
    (hinj : ∀ c c', toKey c = toKey c' → c = c') [DecidableEq ι]
    (keys : List ι) (c : ι) (hc : c ∈ keys) (k : κ) (hk : toKey c = k) :
    ∀ t0 : List ρ,
      lookupBy keyOf k (keys.foldl (fun t c => upsertBy keyOf (rowOf c) t) t0) =
        some (rowOf c) := by
  induction keys with
  | nil => cases hc
  | cons c' cs ih =>
    intro t0
    rw [List.foldl_cons]
    by_cases hmem : c ∈ cs
    · exact ih hmem _
    · have hcc : c = c' := by
        rcases List.mem_cons.mp hc with h | h
        · exact h
        · exact absurd h hmem
      subst hcc
      have hcs : ∀ c' ∈ cs, toKey c' ≠ k := by
        intro c'' hc'' heq
        exact hmem (by rwa [hinj c'' c (by rw [heq, hk])] at hc'')
      rw [lookupBy_foldl_upsert_not_mem keyOf toKey rowOf hkey cs k hcs,
        lookupBy_upsertBy, hkey, if_pos hk]

/-! ## What each aggregate table holds after one aggregation run -/

theorem computeOne_summary_lookup (raw : List RawRow) (sjd : List SessionJob)
    (sid B : Int) (st : AggState) (s : Int) :
    lookupBy summaryKey s (computeSessionAggregatesOne raw sjd sid B st).summary =
      if (rawForSession raw sjd sid).isEmpty then lookupBy summaryKey s st.summary
      else if s = sid then some (mkSummaryRow sid B (rawForSession raw sjd sid))
      else lookupBy summaryKey s st.summary := by
  by_cases he : (rawForSession raw sjd sid).isEmpty = true
  · simp [computeSessionAggregatesOne, he]
  · rw [if_neg he]
    have hsum : (computeSessionAggregatesOne raw sjd sid B st).summary
        = upsertBy summaryKey (mkSummaryRow sid B (rawForSession raw sjd sid))
            (st.summary.filter (fun r => !(r.session_id == sid && r.bucket_seconds == B))) := by
      simp only [computeSessionAggregatesOne, clearSessionAggregates]
      rw [if_neg he]
    rw [hsum, lookupBy_upsertBy]
    by_cases hs : s = sid
    · rw [if_pos hs, if_pos (show summaryKey (mkSummaryRow sid B (rawForSession raw sjd sid)) = s
        from hs ▸ rfl)]
    · rw [if_neg hs, if_neg (show ¬ summaryKey (mkSummaryRow sid B (rawForSession raw sjd sid)) = s
        from fun hh => hs (hh ▸ rfl))]
      exact lookupBy_filter_keep summaryKey _ st.summary s
        (fun r hr => by
          have hrs : r.session_id = s := hr
          simp [hrs, hs])

theorem computeOne_endpoint_lookup (raw : List RawRow) (sjd : List SessionJob)
    (sid B : Int) (st : AggState) (s : Int) (e m : String) :
    lookupBy epKey (s, e, m) (computeSessionAggregatesOne raw sjd sid B st).endpoint =
      if (rawForSession raw sjd sid).isEmpty then lookupBy epKey (s, e, m) st.endpoint
      else if s = sid then
        (if (e, m) ∈ epKeys (rawForSession raw sjd sid)
          then some (mkEndpointRow sid e m (rawForSession raw sjd sid)) else none)
      else lookupBy epKey (s, e, m) st.endpoint := by
  by_cases he : (rawForSession raw sjd sid).isEmpty = true
  · simp [computeSessionAggregatesOne, he]
  · rw [if_neg he]
    have hep : (computeSessionAggregatesOne raw sjd sid B st).endpoint
        = (epKeys (rawForSession raw sjd sid)).foldl
            (fun t (k : String × String) =>
              upsertBy epKey (mkEndpointRow sid k.1 k.2 (rawForSession raw sjd sid)) t)
            (st.endpoint.filter (fun r => !(r.session_id == sid))) := by
      simp only [computeSessionAggregatesOne, clearSessionAggregates]
      rw [if_neg he]
    rw [hep]
    have hkey : ∀ c : String × String,
        epKey (mkEndpointRow sid c.1 c.2 (rawForSession raw sjd sid)) = (sid, c.1, c.2) :=
      fun c => rfl
    have hinj : ∀ c c' : String × String,
        ((sid, c.1, c.2) : Int × String × String) = (sid, c'.1, c'.2) → c = c' := by
      intro c c' hcc
      have h1 : c.1 = c'.1 := congrArg (fun q => q.2.1) hcc
      have h2 : c.2 = c'.2 := congrArg (fun q => q.2.2) hcc
      exact Prod.ext h1 h2
    by_cases hs : s = sid
    · subst hs
      by_cases hmem : (e, m) ∈ epKeys (rawForSession raw sjd s)
      · rw [if_pos rfl, if_pos hmem]
        exact lookupBy_foldl_upsert_mem epKey (fun c => (s, c.1, c.2))
          (fun c => mkEndpointRow s c.1 c.2 (rawForSession raw sjd s)) hkey hinj
          (epKeys (rawForSession raw sjd s)) (e, m) hmem (s, e, m) rfl _
      · rw [if_pos rfl, if_neg hmem,
          lookupBy_foldl_upsert_not_mem epKey (fun c => (s, c.1, c.2))
            (fun c => mkEndpointRow s c.1 c.2 (rawForSession raw sjd s)) hkey
            (epKeys (rawForSession raw sjd s)) (s, e, m)
            (fun c hc hcontra => hmem (by
              have : c = (e, m) := hinj c (e, m) hcontra
              rwa [this] at hc)) _]
        exact lookupBy_filter_drop epKey _ st.endpoint (s, e, m)
          (fun r hr => by
            have hrs : r.session_id = s := congrArg (fun q => q.1) hr
            simp [hrs])
    · rw [if_neg hs,
        lookupBy_foldl_upsert_not_mem epKey (fun c => (sid, c.1, c.2))
          (fun c => mkEndpointRow sid c.1 c.2 (rawForSession raw sjd sid)) hkey
          (epKeys (rawForSession raw sjd sid)) (s, e, m)
          (fun c _ hcontra => hs (congrArg (fun q => q.1) hcontra).symm) _]
      exact lookupBy_filter_keep epKey _ st.endpoint (s, e, m)
        (fun r hr => by
          have hrs : r.session_id = s := congrArg (fun q => q.1) hr
          simp [hrs, hs])

theorem computeOne_timeseries_lookup (raw : List RawRow) (sjd : List SessionJob)
    (sid B : Int) (st : AggState) (s b t : Int) :
    lookupBy tsKey (s, b, t) (computeSessionAggregatesOne raw sjd sid B st).timeseries =
      if (rawForSession raw sjd sid).isEmpty then lookupBy tsKey (s, b, t) st.timeseries
      else if s = sid ∧ b = B then
        (if t ∈ tsBuckets B (rawForSession raw sjd sid)
          then some (mkTsRow sid B t (rawForSession raw sjd sid)) else none)
      else lookupBy tsKey (s, b, t) st.timeseries := by
  by_cases he : (rawForSession raw sjd sid).isEmpty = true
  · simp [computeSessionAggregatesOne, he]
  · rw [if_neg he]
    have hts : (computeSessionAggregatesOne raw sjd sid B st).timeseries
        = (tsBuckets B (rawForSession raw sjd sid)).foldl
            (fun tb b => upsertBy tsKey (mkTsRow sid B b (rawForSession raw sjd sid)) tb)
            (st.timeseries.filter (fun r => !(r.session_id == sid && r.bucket_seconds == B))) := by
      simp only [computeSessionAggregatesOne, clearSessionAggregates]
      rw [if_neg he]
    rw [hts]
    have hkey : ∀ c : Int,
        tsKey (mkTsRow sid B c (rawForSession raw sjd sid)) = (sid, B, c) := fun c => rfl
    have hinj : ∀ c c' : Int, ((sid, B, c) : Int × Int × Int) = (sid, B, c') → c = c' :=
      fun c c' hcc => congrArg (fun q => q.2.2) hcc
    by_cases hsb : s = sid ∧ b = B
    · obtain ⟨hs, hb⟩ := hsb
      subst hs
      subst hb
      by_cases hmem : t ∈ tsBuckets b (rawForSession raw sjd s)
      · rw [if_pos ⟨rfl, rfl⟩, if_pos hmem]
        exact lookupBy_foldl_upsert_mem tsKey (fun c => (s, b, c))
          (fun c => mkTsRow s b c (rawForSession raw sjd s)) hkey hinj
          (tsBuckets b (rawForSession raw sjd s)) t hmem (s, b, t) rfl _
      · rw [if_pos ⟨rfl, rfl⟩, if_neg hmem,
          lookupBy_foldl_upsert_not_mem tsKey (fun c => (s, b, c))
            (fun c => mkTsRow s b c (rawForSession raw sjd s)) hkey
            (tsBuckets b (rawForSession raw sjd s)) (s, b, t)
            (fun c hc hcontra => hmem (by
              have : c = t := hinj c t hcontra
              rwa [this] at hc)) _]
        exact lookupBy_filter_drop tsKey _ st.timeseries (s, b, t)
          (fun r hr => by
            have hrs : r.session_id = s := congrArg (fun q => q.1) hr
            have hrb : r.bucket_seconds = b := congrArg (fun q => q.2.1) hr
            simp [hrs, hrb])
    · rw [if_neg hsb,
        lookupBy_foldl_upsert_not_mem tsKey (fun c => (sid, B, c))
          (fun c => mkTsRow sid B c (rawForSession raw sjd sid)) hkey
          (tsBuckets B (rawForSession raw sjd sid)) (s, b, t)
          (fun c _ hcontra => hsb ⟨(congrArg (fun q => q.1) hcontra).symm,
            (congrArg (fun q => q.2.1) hcontra).symm⟩) _]
      exact lookupBy_filter_keep tsKey _ st.timeseries (s, b, t)
        (fun r hr => by
          have hrs : r.session_id = s := congrArg (fun q => q.1) hr
          have hrb : r.bucket_seconds = b := congrArg (fun q => q.2.1) hr
          by_cases h1 : s = sid
          · have h2 : ¬ b = B := fun hb => hsb ⟨h1, hb⟩
            simp [hrs, hrb, h1, h2]
          · simp [hrs, hrb, h1])

/-- C2: recomputing the aggregates of a session a second time, on
unchanged raw data and session-job associations and the same bucket
width, leaves every stored summary, endpoint-summary and
timeseries-summary row (keyed by its table's primary key) exactly as the
first run left it: the second run is an identity on the aggregate
state. -/
theorem C2_aggregation_idempotent (raw : List RawRow) (sjd : List SessionJob)
    (sid B : Int) (st : AggState) :
    (∀ s, lookupBy summaryKey s
        (computeSessionAggregatesOne raw sjd sid B
          (computeSessionAggregatesOne raw sjd sid B st)).summary
      = lookupBy summaryKey s (computeSessionAggregatesOne raw sjd sid B st).summary) ∧
    (∀ s e m, lookupBy epKey (s, e, m)
        (computeSessionAggregatesOne raw sjd sid B
          (computeSessionAggregatesOne raw sjd sid B st)).endpoint
      = lookupBy epKey (s, e, m) (computeSessionAggregatesOne raw sjd sid B st).endpoint) ∧
    (∀ s b t, lookupBy tsKey (s, b, t)
        (computeSessionAggregatesOne raw sjd sid B
          (computeSessionAggregatesOne raw sjd sid B st)).timeseries
      = lookupBy tsKey (s, b, t) (computeSessionAggregatesOne raw sjd sid B st).timeseries) := by
  refine ⟨fun s => ?_, fun s e m => ?_, fun s b t => ?_⟩
  · rw [computeOne_summary_lookup, computeOne_summary_lookup]
    by_cases he : (rawForSession raw sjd sid).isEmpty = true
    · simp [he]
    · by_cases hs : s = sid
      · simp [he, hs]
      · simp [he, hs, computeOne_summary_lookup]
  · rw [computeOne_endpoint_lookup, computeOne_endpoint_lookup]
    by_cases he : (rawForSession raw sjd sid).isEmpty = true
    · simp [he]
    · by_cases hs : s = sid
      · simp [he, hs]
      · simp [he, hs, computeOne_endpoint_lookup]
  · rw [computeOne_timeseries_lookup, computeOne_timeseries_lookup]
    by_cases he : (rawForSession raw sjd sid).isEmpty = true
    · simp [he]
    · by_cases hsb : s = sid ∧ b = B
      · simp [he, hsb]
      · simp [he, hsb, computeOne_timeseries_lookup]

/-- C9: when a session has no raw rows reachable through its job ids,
`compute_session_aggregates` skips it entirely: nothing is cleared,
nothing is written, no error is raised — the aggregate state is returned
unchanged. -/
theorem C9_skip_session_without_raw (raw : List RawRow) (sjd : List SessionJob)
    (sid B : Int) (st : AggState) (h : rawForSession raw sjd sid = []) :
    computeSessionAggregatesOne raw sjd sid B st = st := by
  simp [computeSessionAggregatesOne, h]

/-- C9, witnessed at a concrete input: a session whose job set matches no
raw row leaves a non-trivial aggregate state untouched. -/
theorem C9_skip_session_without_raw_witness :
    rawForSession
        [{ job_id := 9, worker_id := 1, epoch := 0, method := "GET", endpoint := "/a",
           status_code := 200, latency_ms := none, ttfb_ms := none, is_success := true }]
        [{ session_id := 3, job_id := 4, depth := 1 }] 3 = [] ∧
      computeSessionAggregatesOne
        [{ job_id := 9, worker_id := 1, epoch := 0, method := "GET", endpoint := "/a",
           status_code := 200, latency_ms := none, ttfb_ms := none, is_success := true }]
        [{ session_id := 3, job_id := 4, depth := 1 }] 3 10
        { summary := [], endpoint := [], timeseries := [] }
      = { summary := [], endpoint := [], timeseries := [] } :=
  ⟨rfl, C9_skip_session_without_raw _ _ 3 10 _ rfl⟩

/-- C5 (amended): re-running aggregation for a session with raw data
present fully replaces its summary row, all of its endpoint-summary rows
and all of its timeseries-summary rows *of the current bucket width*:
after the run these tables hold, at the session's keys, exactly the rows
recomputed from the current raw data — no stale endpoint or same-width
timeseries row survives.  (Timeseries rows recorded under a different
bucket width are not cleared; see the counterexample.) -/
theorem C5_rerun_replaces_current_width (raw : List RawRow) (sjd : List SessionJob)
    (sid B : Int) (st : AggState)
    (hne : (rawForSession raw sjd sid).isEmpty = false) :
    lookupBy summaryKey sid (computeSessionAggregatesOne raw sjd sid B st).summary
        = some (mkSummaryRow sid B (rawForSession raw sjd sid)) ∧
    (∀ e m, lookupBy epKey (sid, e, m) (computeSessionAggregatesOne raw sjd sid B st).endpoint
        = if (e, m) ∈ epKeys (rawForSession raw sjd sid)
          then some (mkEndpointRow sid e m (rawForSession raw sjd sid)) else none) ∧
    (∀ t, lookupBy tsKey (sid, B, t) (computeSessionAggregatesOne raw sjd sid B st).timeseries
        = if t ∈ tsBuckets B (rawForSession raw sjd sid)
          then some (mkTsRow sid B t (rawForSession raw sjd sid)) else none) := by
  have he : ¬ (rawForSession raw sjd sid).isEmpty = true := by simp [hne]
  refine ⟨?_, fun e m => ?_, fun t => ?_⟩
  · rw [computeOne_summary_lookup, if_neg he, if_pos rfl]
  · rw [computeOne_endpoint_lookup, if_neg he, if_pos rfl]
  · rw [computeOne_timeseries_lookup, if_neg he, if_pos ⟨rfl, rfl⟩]

/-- The single raw measurement used for the stale-bucket-width
counterexample and the C5 witness: job 1, epoch 0, status 200. -/
def staleRaw : List RawRow :=
  [{ job_id := 1, worker_id := 1, epoch := 0, method := "GET", endpoint := "/x",
     status_code := 200, latency_ms := some 5, ttfb_ms := some 2, is_success := true }]

/-- The session-job association for the counterexample: session 1 owns
job 1. -/
def staleSjd : List SessionJob := [{ session_id := 1, job_id := 1, depth := 1 }]

/-- C5, witnessed at a concrete input: after aggregating session 1 with
bucket width 10 from an empty state, the summary table holds exactly the
recomputed summary row. -/
theorem C5_rerun_replaces_current_width_witness :
    lookupBy summaryKey 1
        (computeSessionAggregatesOne staleRaw staleSjd 1 10
          { summary := [], endpoint := [], timeseries := [] }).summary
      = some (mkSummaryRow 1 10 (rawForSession staleRaw staleSjd 1)) :=
  (C5_rerun_replaces_current_width staleRaw staleSjd 1 10
    { summary := [], endpoint := [], timeseries := [] } (by decide)).1

/-- C5 counterexample: re-running aggregation with a different bucket
width does **not** fully replace the session's aggregate rows — the
timeseries row written under the previous bucket width 10 survives the
re-run with bucket width 20, because `_clear_session_aggregates` deletes
timeseries rows of the current bucket width only. -/
theorem C5_stale_previous_bucket_width_counterexample :
    (lookupBy tsKey (1, 10, 0)
        (computeSessionAggregatesOne staleRaw staleSjd 1 20
          (computeSessionAggregatesOne staleRaw staleSjd 1 10
            { summary := [], endpoint := [], timeseries := [] })).timeseries).isSome
      = true := by
  decide

/-! ## The depth-tracking consume loop (rabbit_worker.py) -/

/-- The in-memory `jobs_depth` Python dict, as an association list in
insertion order. -/
abbrev JobsDepth := List (Int × ℕ)

/-- `jobs_depth.get(jid, 0)`. -/
def jdGet (m : JobsDepth) (k : Int) : ℕ :=
  match m with
  | [] => 0
  | kv :: rest => if kv.1 = k then kv.2 else jdGet rest k

/-- `jobs_depth[jid] = v`: replace in place, else append. -/
def jdSet (m : JobsDepth) (k : Int) (v : ℕ) : JobsDepth :=
  match m with
  | [] => [(k, v)]
  | kv :: rest => if kv.1 = k then (k, v) :: rest else kv :: jdSet rest k v

/-- One decoded raw measurement as the consume loop sees it; only the job
id feeds the depth logic, records are persisted wholesale. -/
structure RawMsg where
  job_id : Int
  deriving DecidableEq

/-- One delivered message after `decode_raw_to_list`: a list of records. -/
abbrev Batch := List RawMsg

/-- `{int(dto["job_id"]) for dto in dtos}`: the distinct job ids of a
batch (kept in first-occurrence order; only the set matters). -/
def batchJobIds (b : Batch) : List Int := (b.map RawMsg.job_id).dedup

/-- The per-batch depth update: one increment per distinct job id present
in the batch. -/
def processBatch (m : JobsDepth) (b : Batch) : JobsDepth :=
  (batchJobIds b).foldl (fun acc jid => jdSet acc jid (jdGet acc jid + 1)) m

/-- `complete_by_depth`:
`bool(jobs_depth) and all(d >= total_depth for d in jobs_depth.values())`. -/
def completeByDepth (m : JobsDepth) (D : Int) : Bool :=
  !m.isEmpty && m.all (fun kv => decide (D ≤ (kv.2 : Int)))

/-- The observable outcome of one session-collection cycle: the final
`jobs_depth` mapping handed to `finalize_session`, how many batches were
processed, whether the cycle ended by depth completion (`fired = true`)
or by the inactivity timeout (end of the delivered stream), and every
record persisted through the Raw Result Sink. -/
structure CollectResult where
  jobs_depth : JobsDepth
  processed : ℕ
  fired : Bool
  inserted : List RawMsg
  deriving DecidableEq

/-- The body of `consume_raw_for_one_session`: for each delivered batch,
persist its records, increment the depth of each distinct job id, then
test `complete_by_depth` and stop at the first batch where it holds; an
exhausted stream is the inactivity timeout, which finalizes with the
mapping as it stands. -/
def collectGo (D : Int) (m : JobsDepth) (acc : List RawMsg) : List Batch → CollectResult
  | [] => { jobs_depth := m, processed := 0, fired := false, inserted := acc }
  | b :: rest =>
    let m' := processBatch m b
    if completeByDepth m' D then
      { jobs_depth := m', processed := 1, fired := true, inserted := acc ++ b }
    else
      let r := collectGo D m' (acc ++ b) rest
      { jobs_depth := r.jobs_depth, processed := r.processed + 1, fired := r.fired,
        inserted := r.inserted }

/-- `consume_raw_for_one_session` starts every cycle from the empty
mapping and nothing persisted. -/
def consumeRawForOneSession (D : Int) (bs : List Batch) : CollectResult :=
  collectGo D [] [] bs

theorem jdGet_jdSet (m : JobsDepth) (k j : Int) (v : ℕ) :
    jdGet (jdSet m k v) j = if k = j then v else jdGet m j := by
  induction m with
  | nil => simp [jdSet, jdGet]
  | cons kv rest ih =>
    simp only [jdSet]
    by_cases h : kv.1 = k
    · simp only [if_pos h, jdGet]
      by_cases hj : k = j
      · simp [hj]
      · rw [if_neg hj, if_neg hj, if_neg (by rw [h]; exact hj)]
    · simp only [if_neg h, jdGet, ih]
      by_cases hv : kv.1 = j
      · have hkj : ¬ k = j := fun hh => h (by rw [hv, hh])
        simp [hv, hkj]
      · simp [hv]

theorem jdGet_foldl_incr (ids : List Int) (hnd : ids.Nodup) :
    ∀ (m : JobsDepth) (j : Int),
      jdGet (ids.foldl (fun acc jid => jdSet acc jid (jdGet acc jid + 1)) m) j
        = jdGet m j + (if j ∈ ids then 1 else 0) := by
  induction ids with
  | nil => intro m j; simp
  | cons c cs ih =>
    intro m j
    have hc : c ∉ cs := (List.nodup_cons.mp hnd).1
    have hnd' : cs.Nodup := (List.nodup_cons.mp hnd).2
    rw [List.foldl_cons, ih hnd', jdGet_jdSet]
    by_cases hj : c = j
    · subst hj
      rw [if_pos rfl, if_neg hc, if_pos (List.mem_cons_self c cs)]
    · rw [if_neg hj]
      by_cases hcs : j ∈ cs
      · rw [if_pos hcs, if_pos (List.mem_cons_of_mem c hcs)]
      · rw [if_neg hcs, if_neg (by
          intro hmem
          rcases List.mem_cons.mp hmem with h | h
          · exact hj h.symm
          · exact hcs h)]

theorem jdGet_processBatch (m : JobsDepth) (b : Batch) (jid : Int) :
    jdGet (processBatch m b) jid = jdGet m jid + (if jid ∈ batchJobIds b then 1 else 0) :=
  jdGet_foldl_incr (batchJobIds b) (List.nodup_dedup _) m jid

theorem completeByDepth_iff (m : JobsDepth) (D : Int) :
    completeByDepth m D = true ↔ m ≠ [] ∧ ∀ kv ∈ m, D ≤ (kv.2 : Int) := by
  simp [completeByDepth, List.isEmpty_iff, List.all_eq_true]

/-- Full characterisation of one collection cycle from an arbitrary
start state: the final mapping is the fold of `processBatch` over the
processed prefix, the persisted records are the records of that prefix,
completion holds at the stopping point when it fired, and at no earlier
point; when it never fired the whole stream was processed and completion
held nowhere. -/
theorem collectGo_spec (D : Int) (bs : List Batch) :
    ∀ (m : JobsDepth) (acc : List RawMsg),
      (collectGo D m acc bs).processed ≤ bs.length ∧
      (collectGo D m acc bs).jobs_depth
        = ((bs.take (collectGo D m acc bs).processed).foldl processBatch m) ∧
      (collectGo D m acc bs).inserted
        = acc ++ (bs.take (collectGo D m acc bs).processed).flatten ∧
      ((collectGo D m acc bs).fired = true →
        completeByDepth (collectGo D m acc bs).jobs_depth D = true) ∧
      (∀ j, 0 < j → j < (collectGo D m acc bs).processed →
        completeByDepth ((bs.take j).foldl processBatch m) D = false) ∧
      ((collectGo D m acc bs).fired = false →
        (collectGo D m acc bs).processed = bs.length ∧
        ∀ j, 0 < j → j ≤ bs.length →
          completeByDepth ((bs.take j).foldl processBatch m) D = false) := by
  induction bs with
  | nil =>
    intro m acc
    refine ⟨Nat.le_refl _, rfl, by simp [collectGo], ?_, ?_, ?_⟩
    · intro hf
      simp [collectGo] at hf
    · intro j hj0 hj1
      simp [collectGo] at hj1
    · intro _
      exact ⟨rfl, fun j hj0 hjle => by simp at hjle; omega⟩
  | cons b rest ih =>
    intro m acc
    by_cases hc : completeByDepth (processBatch m b) D = true
    · have hres : collectGo D m acc (b :: rest)
          = { jobs_depth := processBatch m b, processed := 1, fired := true,
              inserted := acc ++ b } := by
        simp [collectGo, hc]
      rw [hres]
      refine ⟨by simp, by simp, by simp, fun _ => hc, ?_, ?_⟩
      · intro j hj0 hj1
        simp at hj1
        omega
      · intro hf
        exact absurd hf (by simp)
    · have hcf : completeByDepth (processBatch m b) D = false := by
        simpa using hc
      have hres : collectGo D m acc (b :: rest)
          = { jobs_depth := (collectGo D (processBatch m b) (acc ++ b) rest).jobs_depth,
              processed := (collectGo D (processBatch m b) (acc ++ b) rest).processed + 1,
              fired := (collectGo D (processBatch m b) (acc ++ b) rest).fired,
              inserted := (collectGo D (processBatch m b) (acc ++ b) rest).inserted } := by
        simp [collectGo, hc]
      obtain ⟨ih1, ih2, ih3, ih4, ih5, ih6⟩ := ih (processBatch m b) (acc ++ b)
      rw [hres]
      refine ⟨?_, ?_, ?_, ?_, ?_, ?_⟩
      · simpa using Nat.succ_le_succ ih1
      · rw [List.take_succ_cons, List.foldl_cons]
        exact ih2
      · rw [List.take_succ_cons, List.flatten_cons, ih3, List.append_assoc]
      · exact ih4
      · intro j hj0 hj1
        cases j with
        | zero => omega
        | succ j' =>
          rw [List.take_succ_cons, List.foldl_cons]
          by_cases hj' : j' = 0
          · subst hj'
            simpa using hcf
          · exact ih5 j' (by omega) (by simpa using hj1)
      · intro hf
        obtain ⟨hlen, hall⟩ := ih6 hf
        refine ⟨by simp [hlen], ?_⟩
        intro j hj0 hjle
        cases j with
        | zero => omega
        | succ j' =>
          rw [List.take_succ_cons, List.foldl_cons]
          by_cases hj' : j' = 0
          · subst hj'
            simpa using hcf
          · exact hall j' (by omega) (by simpa using hjle)

/-- C3: each successfully processed batch increments the observed depth
of every distinct job id present in it by exactly 1 (independent of
record multiplicity); `complete_by_depth` holds exactly when the mapping
is non-empty and every tracked depth reaches the target; and the cycle
stops at the first batch after which the test holds — it fires there if
such a batch exists, and at no state reached before it. -/
theorem C3_depth_completion (D : Int) (bs : List Batch) :
    (∀ (m : JobsDepth) (b : Batch) (jid : Int),
      jdGet (processBatch m b) jid
        = jdGet m jid + (if jid ∈ batchJobIds b then 1 else 0)) ∧
    (∀ m : JobsDepth, completeByDepth m D = true ↔ m ≠ [] ∧ ∀ kv ∈ m, D ≤ (kv.2 : Int)) ∧
    (consumeRawForOneSession D bs).jobs_depth
      = ((bs.take (consumeRawForOneSession D bs).processed).foldl processBatch []) ∧
    ((consumeRawForOneSession D bs).fired = true →
      completeByDepth (consumeRawForOneSession D bs).jobs_depth D = true) ∧
    (∀ j, j < (consumeRawForOneSession D bs).processed →
      completeByDepth ((bs.take j).foldl processBatch []) D = false) ∧
    ((consumeRawForOneSession D bs).fired = false →
      (consumeRawForOneSession D bs).processed = bs.length ∧
      ∀ j, j ≤ bs.length → completeByDepth ((bs.take j).foldl processBatch []) D = false) := by
  obtain ⟨h1, h2, h3, h4, h5, h6⟩ := collectGo_spec D bs [] []
  have hzero : ∀ j, j = 0 → completeByDepth ((bs.take j).foldl processBatch []) D = false := by
    intro j hj
    subst hj
    rfl
  refine ⟨fun m b jid => jdGet_processBatch m b jid, fun m => completeByDepth_iff m D,
    h2, h4, ?_, ?_⟩
  · intro j hj
    by_cases hj0 : j = 0
    · exact hzero j hj0
    · exact h5 j (by omega) hj
  · intro hf
    obtain ⟨hlen, hall⟩ := h6 hf
    refine ⟨hlen, ?_⟩
    intro j hjle
    by_cases hj0 : j = 0
    · exact hzero j hj0
    · exact hall j (by omega) hjle

/-- Once the cycle fired after its `processed`-th batch, any queued
suffix beyond that point is irrelevant: the cycle run on the processed
prefix extended by arbitrary further batches returns the identical
result. -/
theorem collectGo_fired_stops (D : Int) (bs : List Batch) :
    ∀ (m : JobsDepth) (acc : List RawMsg),
      (collectGo D m acc bs).fired = true →
      ∀ rest : List Batch,
        collectGo D m acc (bs.take (collectGo D m acc bs).processed ++ rest)
          = collectGo D m acc bs := by
  induction bs with
  | nil =>
    intro m acc hf
    cases hf
  | cons b bsr ih =>
    intro m acc hf rest
    by_cases hc : completeByDepth (processBatch m b) D = true
    · have hres : collectGo D m acc (b :: bsr)
          = { jobs_depth := processBatch m b, processed := 1, fired := true,
              inserted := acc ++ b } := by
        simp [collectGo, hc]
      rw [hres]
      show collectGo D m acc (b :: ([] ++ rest)) = _
      simp [collectGo, hc]
    · have hres : collectGo D m acc (b :: bsr)
          = { jobs_depth := (collectGo D (processBatch m b) (acc ++ b) bsr).jobs_depth,
              processed := (collectGo D (processBatch m b) (acc ++ b) bsr).processed + 1,
              fired := (collectGo D (processBatch m b) (acc ++ b) bsr).fired,
              inserted := (collectGo D (processBatch m b) (acc ++ b) bsr).inserted } := by
        simp [collectGo, hc]
      rw [hres] at hf ⊢
      have hf' : (collectGo D (processBatch m b) (acc ++ b) bsr).fired = true := hf
      rw [List.take_succ_cons, List.cons_append]
      have hstep : collectGo D m acc
          (b :: (bsr.take (collectGo D (processBatch m b) (acc ++ b) bsr).processed ++ rest))
          = { jobs_depth := (collectGo D (processBatch m b) (acc ++ b)
                (bsr.take (collectGo D (processBatch m b) (acc ++ b) bsr).processed
                  ++ rest)).jobs_depth,
              processed := (collectGo D (processBatch m b) (acc ++ b)
                (bsr.take (collectGo D (processBatch m b) (acc ++ b) bsr).processed
                  ++ rest)).processed + 1,
              fired := (collectGo D (processBatch m b) (acc ++ b)
                (bsr.take (collectGo D (processBatch m b) (acc ++ b) bsr).processed
                  ++ rest)).fired,
              inserted := (collectGo D (processBatch m b) (acc ++ b)
                (bsr.take (collectGo D (processBatch m b) (acc ++ b) bsr).processed
                  ++ rest)).inserted } := by
        simp [collectGo, hc]
      rw [hstep, ih (processBatch m b) (acc ++ b) hf' rest]

/-- Two consecutive session-collection cycles of the worker's main loop
against the shared RAW queue.  When the first cycle breaks out of its
consume loop, `ch.cancel()` only cancels the consumer and requeues the
in-flight deliveries — there is no drain loop — so the messages still
queued beyond the first cycle's processed prefix are exactly what the
next cycle's `consume_raw_for_one_session` receives. -/
def twoSessionRun (D1 D2 : Int) (queue : List Batch) : CollectResult × CollectResult :=
  let r1 := consumeRawForOneSession D1 queue
  (r1, consumeRawForOneSession D2 (queue.drop r1.processed))

/-- A cycle whose stream starts with a batch processes at least that
batch: the loop persists and counts the head batch before it first tests
completion, and a timeout can only end an exhausted stream. -/
theorem collectGo_processed_pos (D : Int) (m : JobsDepth) (acc : List RawMsg)
    (b : Batch) (rest : List Batch) :
    1 ≤ (collectGo D m acc (b :: rest)).processed := by
  by_cases hc : completeByDepth (processBatch m b) D = true
  · have hres : collectGo D m acc (b :: rest)
        = { jobs_depth := processBatch m b, processed := 1, fired := true,
            inserted := acc ++ b } := by
      simp [collectGo, hc]
    rw [hres]
  · have hres : (collectGo D m acc (b :: rest)).processed
        = (collectGo D (processBatch m b) (acc ++ b) rest).processed + 1 := by
      simp [collectGo, hc]
    omega

/-- Observed depths only grow while batches are processed. -/
theorem jdGet_le_foldl_processBatch (bs : List Batch) :
    ∀ (m : JobsDepth) (j : Int), jdGet m j ≤ jdGet (bs.foldl processBatch m) j := by
  induction bs with
  | nil => intro m j; exact Nat.le_refl _
  | cons b rest ih =>
    intro m j
    rw [List.foldl_cons]
    have h1 : jdGet m j ≤ jdGet (processBatch m b) j := by
      rw [jdGet_processBatch]
      omega
    exact Nat.le_trans h1 (ih (processBatch m b) j)

/-- C8 counterexample: the queued batches left behind at completion are
**not** drained.  With target depth 1 and the queue holding one batch for
job 1 then one for job 2, the first cycle fires after the job-1 batch;
the job-2 batch stays queued, is delivered into the next session's
collection window, is persisted there and is counted in the next
session's depth mapping — refuting the claim that every already-queued
batch for this session is drained and not carried over. -/
theorem C8_not_drained_counterexample :
    (consumeRawForOneSession 1 [[{ job_id := 1 }], [{ job_id := 2 }]]).fired = true ∧
    (consumeRawForOneSession 1 [[{ job_id := 1 }], [{ job_id := 2 }]]).processed = 1 ∧
    (twoSessionRun 1 1 [[{ job_id := 1 }], [{ job_id := 2 }]]).2.jobs_depth = [(2, 1)] ∧
    (twoSessionRun 1 1 [[{ job_id := 1 }], [{ job_id := 2 }]]).2.inserted
      = [{ job_id := 2 }] := by
  decide

/-- C8 (amended): once a completion state is entered and the final
mapping is handed to the Session Materializer, the batches queued beyond
the processed prefix do not change the finalized mapping and produce no
persisted raw rows for this session — but they are not drained: the
consumer is cancelled without emptying the queue, so exactly those
leftover batches form the next session's collection window, where the
head leftover batch is processed — its records persisted and each of its
distinct job ids counted in the next session's mapping. -/
theorem C8_completion_isolation (D1 D2 : Int) (queue : List Batch)
    (hf : (consumeRawForOneSession D1 queue).fired = true) :
    (∀ rest : List Batch,
      consumeRawForOneSession D1
          (queue.take (consumeRawForOneSession D1 queue).processed ++ rest)
        = consumeRawForOneSession D1 queue) ∧
    (consumeRawForOneSession D1 queue).inserted
      = (queue.take (consumeRawForOneSession D1 queue).processed).flatten ∧
    (twoSessionRun D1 D2 queue).2
      = consumeRawForOneSession D2
          (queue.drop (consumeRawForOneSession D1 queue).processed) ∧
    (∀ (b : Batch) (later : List Batch),
      queue.drop (consumeRawForOneSession D1 queue).processed = b :: later →
      (∀ jid ∈ batchJobIds b, 1 ≤ jdGet (twoSessionRun D1 D2 queue).2.jobs_depth jid) ∧
      ∀ r ∈ b, r ∈ (twoSessionRun D1 D2 queue).2.inserted) := by
  have htwo : (twoSessionRun D1 D2 queue).2
      = consumeRawForOneSession D2
          (queue.drop (consumeRawForOneSession D1 queue).processed) := rfl
  refine ⟨fun rest => collectGo_fired_stops D1 queue [] [] hf rest, ?_, htwo, ?_⟩
  · have h := (collectGo_spec D1 queue [] []).2.2.1
    simpa using h
  · intro b later hdrop
    rw [htwo, hdrop]
    have hp : 1 ≤ (consumeRawForOneSession D2 (b :: later)).processed :=
      collectGo_processed_pos D2 [] [] b later
    obtain ⟨p', hp'⟩ : ∃ p', (consumeRawForOneSession D2 (b :: later)).processed = p' + 1 :=
      ⟨(consumeRawForOneSession D2 (b :: later)).processed - 1, by omega⟩
    have hmap : (consumeRawForOneSession D2 (b :: later)).jobs_depth
        = ((b :: later).take ((consumeRawForOneSession D2 (b :: later)).processed)).foldl
            processBatch [] :=
      (collectGo_spec D2 (b :: later) [] []).2.1
    have hins : (consumeRawForOneSession D2 (b :: later)).inserted
        = ((b :: later).take
            ((consumeRawForOneSession D2 (b :: later)).processed)).flatten := by
      have h := (collectGo_spec D2 (b :: later) [] []).2.2.1
      simpa using h
    rw [hp', List.take_succ_cons] at hmap hins
    constructor
    · intro jid hjid
      rw [hmap, List.foldl_cons]
      have hone : jdGet (processBatch [] b) jid = 1 := by
        rw [jdGet_processBatch]
        simp [jdGet, hjid]
      calc (1 : ℕ) = jdGet (processBatch [] b) jid := hone.symm
        _ ≤ _ := jdGet_le_foldl_processBatch (later.take p') (processBatch [] b) jid
    · intro r hr
      rw [hins, List.flatten_cons]
      exact List.mem_append_left _ hr

/-- C8, witnessed at a concrete input: with target depth 1, the first
batch for job 3 fires completion, and what was persisted for that session
is exactly the records of the processed prefix. -/
theorem C8_completion_isolation_witness :
    (consumeRawForOneSession 1 [[{ job_id := 3 }], [{ job_id := 4 }]]).inserted
      = ([[{ job_id := 3 }], [{ job_id := 4 }]].take
          (consumeRawForOneSession 1 [[{ job_id := 3 }], [{ job_id := 4 }]]).processed).flatten :=
  (C8_completion_isolation 1 1 [[{ job_id := 3 }], [{ job_id := 4 }]] (by decide)).2.1

/-! ## The Raw Result Sink (storage.py and job_repo.py) -/

/-- A Python value as it appears in a decoded JSON record. -/
inductive PyVal
  | vnull
  | vint (n : Int)
  | vnum (q : ℚ)
  | vstr (s : String)
  | vbool (b : Bool)
  deriving DecidableEq

/-- The two error shapes the sink raises: the explicit `ValueError` for
missing keys, and the `TypeError` Python raises when `float(None)` or
`int(None)` is evaluated. -/
inductive SinkError
  | validationError (missing : List String)
  | typeError (op : String)
  deriving DecidableEq

/-- A decoded record: a Python dict with unique keys. -/
abbrev Dto := List (String × PyVal)

def dtoKeys (dto : Dto) : List String := dto.map Prod.fst

/-- `dto[k]` (keys are unique in a decoded JSON object). -/
def dtoGet (dto : Dto) (k : String) : PyVal :=
  match dto with
  | [] => PyVal.vnull
  | kv :: rest => if kv.1 = k then kv.2 else dtoGet rest k

/-- Python `float(v)` on the value shapes a decoded record can hold
(these fields carry numbers, booleans or `null` per the interface). -/
def pyFloat : PyVal → Except SinkError ℚ
  | PyVal.vint n => Except.ok (n : ℚ)
  | PyVal.vnum q => Except.ok q
  | PyVal.vbool b => Except.ok (if b then 1 else 0)
  | PyVal.vnull => Except.error (SinkError.typeError "float(None)")
  | PyVal.vstr s => Except.error (SinkError.typeError ("float of str " ++ s))

/-- Python `int(v)` on the same value shapes (`int` of a float truncates
toward zero). -/
def pyInt : PyVal → Except SinkError Int
  | PyVal.vint n => Except.ok n
  | PyVal.vnum q => Except.ok (pyTruncInt q)
  | PyVal.vbool b => Except.ok (if b then 1 else 0)
  | PyVal.vnull => Except.error (SinkError.typeError "int(None)")
  | PyVal.vstr s => Except.error (SinkError.typeError ("int of str " ++ s))

/-- Python `str(v)`. -/
def pyStr : PyVal → String
  | PyVal.vnull => "None"
  | PyVal.vint n => toString n
  | PyVal.vnum q => toString q
  | PyVal.vstr s => s
  | PyVal.vbool b => if b then "True" else "False"

/-- Python `bool(v)`. -/
def pyBool : PyVal → Bool
  | PyVal.vnull => false
  | PyVal.vint n => n != 0
  | PyVal.vnum q => q != 0
  | PyVal.vstr s => s != ""
  | PyVal.vbool b => b

/-- The 12 required keys shared by storage.py and job_repo.py (kept in
the schema order job_repo.py lists; storage.py reports its missing set
sorted, a difference of message formatting only). -/
def REQUIRED_KEYS : List String :=
  ["job_id", "worker_id", "timestamp", "method", "endpoint", "status_code",
   "latency_ms", "ttfb_ms", "response_size_bytes", "error_msg",
   "scenario_step", "is_success"]

/-- The tuple inserted into `request_results`; `error_msg` is kept as the
stored Python value (`None`, or whatever the insert passed through). -/
structure ResultRow where
  job_id : Int
  worker_id : Int
  timestamp : String
  method : String
  endpoint : String
  status_code : Int
  latency_ms : Option ℚ
  ttfb_ms : Option ℚ
  response_size_bytes : Option Int
  error_msg : Option PyVal
  scenario_step : Option Int
  is_success : Bool
  deriving DecidableEq

/-- `insert_raw_result` from storage.py: validate that no required key is
missing, then build the inserted tuple with the source's coercions, in
the source's evaluation order.  `latency_ms`, `response_size_bytes` and
`scenario_step` are coerced with bare `float(...)` / `int(...)` and no
`None` guard, while `ttfb_ms` and `error_msg` are guarded. -/
def insertRawResult (dto : Dto) : Except SinkError ResultRow := do
  let missing := REQUIRED_KEYS.filter (fun k => decide (k ∉ dtoKeys dto))
  if missing ≠ [] then
    throw (SinkError.validationError missing)
  let jb ← pyInt (dtoGet dto "job_id")
  let wk ← pyInt (dtoGet dto "worker_id")
  let ts := pyStr (dtoGet dto "timestamp")
  let me := pyStr (dtoGet dto "method")
  let ep := pyStr (dtoGet dto "endpoint")
  let sc ← pyInt (dtoGet dto "status_code")
  let lat ← pyFloat (dtoGet dto "latency_ms")
  let tt ← match dtoGet dto "ttfb_ms" with
    | PyVal.vnull => pure none
    | v => do pure (some (← pyFloat v))
  let rs ← pyInt (dtoGet dto "response_size_bytes")
  let em := match dtoGet dto "error_msg" with
    | PyVal.vnull => none
    | v => some (PyVal.vstr (pyStr v))
  let sp ← pyInt (dtoGet dto "scenario_step")
  pure { job_id := jb, worker_id := wk, timestamp := ts, method := me, endpoint := ep,
         status_code := sc, latency_ms := some lat, ttfb_ms := tt,
         response_size_bytes := some rs, error_msg := em, scenario_step := some sp,
         is_success := pyBool (dtoGet dto "is_success") }

/-- `JobRepository.insert_job` from job_repo.py: same validation, but
every optional field is `None`-guarded before coercion and `error_msg`
is stored as delivered. -/
def insertJob (dto : Dto) : Except SinkError ResultRow := do
  let missing := REQUIRED_KEYS.filter (fun k => decide (k ∉ dtoKeys dto))
  if missing ≠ [] then
    throw (SinkError.validationError missing)
  let jb ← pyInt (dtoGet dto "job_id")
  let wk ← pyInt (dtoGet dto "worker_id")
  let ts := pyStr (dtoGet dto "timestamp")
  let me := pyStr (dtoGet dto "method")
  let ep := pyStr (dtoGet dto "endpoint")
  let sc ← pyInt (dtoGet dto "status_code")
  let lat ← match dtoGet dto "latency_ms" with
    | PyVal.vnull => pure none
    | v => do pure (some (← pyFloat v))
  let tt ← match dtoGet dto "ttfb_ms" with
    | PyVal.vnull => pure none
    | v => do pure (some (← pyFloat v))
  let rs ← match dtoGet dto "response_size_bytes" with
    | PyVal.vnull => pure none
    | v => do pure (some (← pyInt v))
  let em := match dtoGet dto "error_msg" with
    | PyVal.vnull => none
    | v => some v
  let sp ← match dtoGet dto "scenario_step" with
    | PyVal.vnull => pure none
    | v => do pure (some (← pyInt v))
  pure { job_id := jb, worker_id := wk, timestamp := ts, method := me, endpoint := ep,
         status_code := sc, latency_ms := lat, ttfb_ms := tt,
         response_size_bytes := rs, error_msg := em, scenario_step := sp,
         is_success := pyBool (dtoGet dto "is_success") }

/-- The 12-key record, with `null` in every optional field, that the
external interface declares valid. -/
def nullOptionalDto : Dto :=
  [("job_id", PyVal.vint 1), ("worker_id", PyVal.vint 2),
   ("timestamp", PyVal.vstr "2024-01-01T00:00:00"), ("method", PyVal.vstr "GET"),
   ("endpoint", PyVal.vstr "/api"), ("status_code", PyVal.vint 200),
   ("latency_ms", PyVal.vnull), ("ttfb_ms", PyVal.vnull),
   ("response_size_bytes", PyVal.vnull), ("error_msg", PyVal.vnull),
   ("scenario_step", PyVal.vnull), ("is_success", PyVal.vbool true)]

/-- The same record with non-null numeric optionals. -/
def numericOptionalDto : Dto :=
  [("job_id", PyVal.vint 1), ("worker_id", PyVal.vint 2),
   ("timestamp", PyVal.vstr "2024-01-01T00:00:00"), ("method", PyVal.vstr "GET"),
   ("endpoint", PyVal.vstr "/api"), ("status_code", PyVal.vint 200),
   ("latency_ms", PyVal.vnum 5), ("ttfb_ms", PyVal.vnull),
   ("response_size_bytes", PyVal.vint 10), ("error_msg", PyVal.vnull),
   ("scenario_step", PyVal.vint 0), ("is_success", PyVal.vbool true)]

/-- C4 (code bug): on a record holding all 12 required keys with `null`
latency, the Raw Result Sink the worker actually calls
(`insert_raw_result`) raises a `TypeError` from the unguarded
`float(dto["latency_ms"])` instead of storing `NULL`; the parallel
`JobRepository.insert_job` accepts the identical record and stores nulls,
as the spec requires of the sink.  A record with non-null numeric
optionals is accepted, and a record lacking a required key fails with
the validation error. -/
theorem C4_null_optionals_rejected_by_sink :
    insertRawResult nullOptionalDto = Except.error (SinkError.typeError "float(None)") ∧
    insertJob nullOptionalDto
      = Except.ok { job_id := 1, worker_id := 2, timestamp := "2024-01-01T00:00:00",
                    method := "GET", endpoint := "/api", status_code := 200,
                    latency_ms := none, ttfb_ms := none, response_size_bytes := none,
                    error_msg := none, scenario_step := none, is_success := true } ∧
    insertRawResult numericOptionalDto
      = Except.ok { job_id := 1, worker_id := 2, timestamp := "2024-01-01T00:00:00",
                    method := "GET", endpoint := "/api", status_code := 200,
                    latency_ms := some 5, ttfb_ms := none, response_size_bytes := some 10,
                    error_msg := none, scenario_step := some 0, is_success := true } ∧
    insertRawResult (nullOptionalDto.filter (fun kv => kv.1 != "job_id"))
      = Except.error (SinkError.validationError ["job_id"]) := by
  exact ⟨rfl, rfl, rfl, rfl⟩

/-! ## The Session Materializer (session_repo.py) and finalize_session -/

/-- One row of `analysis_sessions`. -/
structure SessionRow where
  session_id : Int
  started_at : String
  description : Option String
  total_depth : Int
  status : String
  deriving DecidableEq

/-- The session store: both tables the materializer writes, plus the
autoincrement counter behind `last_insert_rowid()`. -/
structure SessionDB where
  sessions : List SessionRow
  session_jobs : List SessionJob
  next_id : Int
  deriving DecidableEq

/-- `SessionRepository.create_session_with_jobs`: refuse an empty
mapping before touching storage; otherwise insert, in one transaction,
one session row and one `analysis_session_jobs` row per tracked job, and
return the new session id.  `started_at` is the caller-resolved
timestamp (the source defaults it to `datetime.now()`, an external
effect). -/
def createSessionWithJobs (db : SessionDB) (description : Option String)
    (total_depth : Int) (jobs_depth : JobsDepth) (status : String) (started_at : String) :
    Except String (SessionDB × Int) :=
  if jobs_depth.isEmpty then
    Except.error "jobs_depth is empty - cannot create empty session"
  else
    Except.ok
      ({ sessions := db.sessions ++
          [{ session_id := db.next_id, started_at := started_at, description := description,
             total_depth := total_depth, status := status }],
         session_jobs := db.session_jobs ++
          jobs_depth.map (fun kv => { session_id := db.next_id, job_id := kv.1,
                                      depth := (kv.2 : Int) }),
         next_id := db.next_id + 1 }, db.next_id)

/-- The `analysis_done` reply message.  The PDF payload fields are
produced by the external report collaborator and are not modelled. -/
structure DoneMsg where
  event : String
  ok : Bool
  description : Option String
  error_msg : Option String
  session_id : Option Int
  jobs_count : Option ℕ
  total_depth : Option Int
  deriving DecidableEq

/-- `finalize_session`: an empty mapping publishes a failure reply and
touches neither store; otherwise materialize the session, recompute its
aggregates from the raw rows now associated with it, and publish the
success reply.  A materializer failure would propagate as
`Except.error`; the empty-mapping guard makes that branch unreachable
here. -/
def finalizeSession (db : SessionDB) (agg : AggState) (raw : List RawRow)
    (description : Option String) (total_depth : Int) (jobs_depth : JobsDepth)
    (B : Int) (started_at : String) :
    Except String (SessionDB × AggState × DoneMsg) :=
  if jobs_depth.isEmpty then
    Except.ok (db, agg,
      { event := "analysis_done", ok := false, description := description,
        error_msg := some "Timeout/finish but no jobs received.",
        session_id := none, jobs_count := none, total_depth := none })
  else
    (createSessionWithJobs db description total_depth jobs_depth "DONE" started_at).map
      (fun p =>
        (p.1, computeSessionAggregatesOne raw p.1.session_jobs p.2 B agg,
          { event := "analysis_done", ok := true, description := description,
            error_msg := none, session_id := some p.2,
            jobs_count := some jobs_depth.length, total_depth := some total_depth }))

/-- C6: on the empty job-to-depth mapping the Session Materializer fails
with the empty-mapping error, creating no session row and no job rows
(no success value exists, so every store is untouched), and the caller's
timeout-with-no-data path still publishes a failure reply (`ok = false`)
while leaving the session store and the aggregate state unchanged. -/
theorem C6_empty_mapping_failure (db : SessionDB) (agg : AggState) (raw : List RawRow)
    (desc : Option String) (D : Int) (jd : JobsDepth) (B : Int) (sa : String)
    (h : jd = []) :
    createSessionWithJobs db desc D jd "DONE" sa
        = Except.error "jobs_depth is empty - cannot create empty session" ∧
    (∀ (db' : SessionDB) (sid : Int),
      createSessionWithJobs db desc D jd "DONE" sa ≠ Except.ok (db', sid)) ∧
    finalizeSession db agg raw desc D jd B sa
        = Except.ok (db, agg,
            { event := "analysis_done", ok := false, description := desc,
              error_msg := some "Timeout/finish but no jobs received.",
              session_id := none, jobs_count := none, total_depth := none }) := by
  subst h
  refine ⟨rfl, ?_, rfl⟩
  intro db' sid hcontra
  simp [createSessionWithJobs] at hcontra

/-- C6, witnessed at a concrete input: the empty mapping is refused. -/
theorem C6_empty_mapping_failure_witness :
    createSessionWithJobs { sessions := [], session_jobs := [], next_id := 1 }
        none 3 [] "DONE" "2024-01-01T00:00:00"
      = Except.error "jobs_depth is empty - cannot create empty session" :=
  (C6_empty_mapping_failure { sessions := [], session_jobs := [], next_id := 1 }
    { summary := [], endpoint := [], timeseries := [] } [] none 3 [] 10
    "2024-01-01T00:00:00" rfl).1
